import Mathlib

/-!
Verification development for the hybrid_ivp routing repository.

The Python sources are shallowly embedded over the real numbers: every
numpy / jax float array becomes a `List ℝ`, float scalars become `ℝ`, and
fallible numpy operations (broadcasting of mismatched shapes, assertion
checks in constructors) become `Option`-valued functions, with `none`
standing for the runtime error.  The stage of `Route.recompute_times`
that manipulates IEEE NaN values is embedded separately over `ℚ ⊕ NaN`
(a dedicated inductive type) so that its behaviour is decidable.

Modules of the repository that are only imported here (the geometry
package, `vectorfields/base.py`, `optimization/route.py`,
`jax_utils/zivp.py`) are not part of the provided sources; the
definitions standing for them are modelled from the specification and
carry a doc comment saying so.
-/

namespace HybridRouting

/-- Two-argument arctangent with the semantics of `numpy.arctan2 y x`:
the angle of the point `(x, y)` in `(-pi, pi]`-style quadrant handling. -/
noncomputable def arctan2 (y x : ℝ) : ℝ :=
  if 0 < x then Real.arctan (y / x)
  else if x < 0 then
    (if 0 ≤ y then Real.arctan (y / x) + Real.pi else Real.arctan (y / x) - Real.pi)
  else
    (if 0 < y then Real.pi / 2 else if y < 0 then -(Real.pi / 2) else 0)

/-- Modelled from the spec: the geometry capability (package
`hybrid_routing.geometry`, not among the provided sources).  The spec
describes the Euclidean variant: "pairwise distance between consecutive
points".  `dist_between_coords x y` returns the list of Euclidean
distances between consecutive coordinate pairs; on sequences of equal
length `N` it has length `N - 1`. -/
noncomputable def dist_between_coords (x y : List ℝ) : List ℝ :=
  List.zipWith (fun p q => Real.sqrt ((q.1 - p.1) ^ 2 + (q.2 - p.2) ^ 2))
    (x.zip y) (x.zip y).tail

/-- Modelled from the spec: the geometry capability's
`ang_between_coords`, the angle of each consecutive segment, via
`arctan2`. -/
noncomputable def ang_between_coords (x y : List ℝ) : List ℝ :=
  List.zipWith (fun p q => arctan2 (q.2 - p.2) (q.1 - p.1)) (x.zip y) (x.zip y).tail

/-- Embedding of the `Route` entity of `jax_utils/route.py`: four sample
sequences plus the eagerly computed distance cache `d`. -/
structure Route where
  x : List ℝ
  y : List ℝ
  t : List ℝ
  theta : List ℝ
  d : List ℝ

/-- Embedding of `Route.__init__` (`jax_utils/route.py`, lines 11-40).
When `t` is omitted it defaults to the index sequence
`jnp.arange(0, len(x), 1)`; the `assert` checks that `x`, `y`, `t` have
equal lengths (`none` models the `AssertionError`); `theta` defaults to
`jnp.zeros_like(x)` and is not length-checked; the distance cache is
computed eagerly. -/
noncomputable def Route.construct (x y : List ℝ)
    (t0 : Option (List ℝ)) (theta0 : Option (List ℝ)) : Option Route :=
  let t := t0.getD ((List.range x.length).map (fun i : ℕ => (i : ℝ)))
  if x.length = y.length ∧ y.length = t.length then
    some ⟨x, y, t, theta0.getD (List.replicate x.length 0), dist_between_coords x y⟩
  else none

/-- Embedding of `numpy.diff`: consecutive differences `l[i+1] - l[i]`. -/
noncomputable def npDiff (l : List ℝ) : List ℝ :=
  List.zipWith (fun a b => a - b) l.tail l

/-- Embedding of the `Route.dt` property: `-np.diff(self.t)`. -/
noncomputable def Route.dt (r : Route) : List ℝ := (npDiff r.t).map (fun a => -a)

/-- Embedding of the `Route.dx` property: `-np.diff(self.x)`. -/
noncomputable def Route.dx (r : Route) : List ℝ := (npDiff r.x).map (fun a => -a)

/-- Embedding of the `Route.dy` property: `-np.diff(self.y)`. -/
noncomputable def Route.dy (r : Route) : List ℝ := (npDiff r.y).map (fun a => -a)

/-- Embedding of the `Route.dxdt` property: elementwise `self.dx / self.dt`. -/
noncomputable def Route.dxdt (r : Route) : List ℝ :=
  List.zipWith (fun a b => a / b) r.dx r.dt

/-- Embedding of the `Route.dydt` property: elementwise `self.dy / self.dt`. -/
noncomputable def Route.dydt (r : Route) : List ℝ :=
  List.zipWith (fun a b => a / b) r.dy r.dt

/-- Embedding of numpy 1-D broadcasting for the addition of two arrays:
equal lengths add elementwise, a length-one operand is stretched, any
other combination is a runtime error (`none`). -/
noncomputable def broadcastAdd (a b : List ℝ) : Option (List ℝ) :=
  if a.length = b.length then some (List.zipWith (fun u v => u + v) a b)
  else if a.length = 1 then some (b.map (fun v => a.headD 0 + v))
  else if b.length = 1 then some (a.map (fun u => u + b.headD 0))
  else none

/-- Embedding of `Route.append_points` (`jax_utils/route.py`, lines
94-119).  The new coordinates are concatenated; when `t` is omitted the
code computes `self.t + jnp.arange(0, len(x), 1)` — a broadcast addition
of the whole current time array with the index array of the new points —
and concatenates the result; when `theta` is omitted it repeats the last
heading, `jnp.full_like(x, self.theta[-1])`; the distance cache is
recomputed over the extended coordinate sequences. -/
noncomputable def Route.append_points (r : Route) (x y : List ℝ)
    (t0 : Option (List ℝ)) (theta0 : Option (List ℝ)) : Option Route :=
  let newx := r.x ++ x
  let newy := r.y ++ y
  match t0.map some |>.getD (broadcastAdd r.t ((List.range x.length).map (fun i : ℕ => (i : ℝ)))) with
  | none => none
  | some tApp =>
    let thetaApp := theta0.getD (List.replicate x.length (r.theta.getLastD 0))
    some ⟨newx, newy, r.t ++ tApp, r.theta ++ thetaApp, dist_between_coords newx newy⟩

/-- Embedding of `numpy.linspace a b num`, endpoint included. -/
noncomputable def linspace (a b : ℝ) (num : ℕ) : List ℝ :=
  if num = 1 then [a]
  else (List.range num).map (fun i : ℕ => a + i * ((b - a) / ((num : ℝ) - 1)))

/-- Embedding of the value `numpy.interp` assigns to one query point:
piecewise-linear interpolation between the sample points `xp` (assumed
increasing) with values `fp`, constant beyond the first and last sample. -/
noncomputable def interpAt : List ℝ → List ℝ → ℝ → ℝ
  | x0 :: x1 :: xs, f0 :: f1 :: fs, q =>
      if q ≤ x0 then f0
      else if q ≤ x1 then f0 + (q - x0) * (f1 - f0) / (x1 - x0)
      else interpAt (x1 :: xs) (f1 :: fs) q
  | [_], f0 :: _, _ => f0
  | _, _, _ => 0

/-- Embedding of `numpy.interp(xq, xp, fp)`. -/
noncomputable def npInterp (xq xp fp : List ℝ) : List ℝ := xq.map (interpAt xp fp)

/-- Embedding of numpy 1-D broadcasting for `np.divide`, as in
`broadcastAdd`. -/
noncomputable def broadcastDiv (a b : List ℝ) : Option (List ℝ) :=
  if a.length = b.length then some (List.zipWith (fun u v => u / v) a b)
  else if a.length = 1 then some (b.map (fun v => a.headD 0 / v))
  else if b.length = 1 then some (a.map (fun u => u / b.headD 0))
  else none

/-- Modelled from the spec: the geometry capability's
`components_to_ang_mod`, elementwise angle and module of the vectors. -/
noncomputable def components_to_ang_mod (vx vy : List ℝ) : List ℝ × List ℝ :=
  (List.zipWith (fun x y => arctan2 y x) vx vy,
   List.zipWith (fun x y => Real.sqrt (x ^ 2 + y ^ 2)) vx vy)

/-- Modelled from the spec: the geometry capability's
`ang_mod_to_components`, elementwise components of a vector given by
angle and module. -/
noncomputable def ang_mod_to_components (a m : List ℝ) : List ℝ × List ℝ :=
  (List.zipWith (fun ang mo => mo * Real.cos ang) a m,
   List.zipWith (fun ang mo => mo * Real.sin ang) a m)

/-- Embedding of `numpy.cumsum`. -/
noncomputable def cumsum (l : List ℝ) : List ℝ := (l.scanl (fun a b => a + b) 0).tail

/-- The vector-field collaborator: `get_current` returns the flow
velocity at a point (`vectorfields/base.py` is consumed, its concrete
fields live in `vectorfields/`). -/
structure Vectorfield where
  get_current : ℝ → ℝ → ℝ × ℝ

/-- Embedding of `Route.recompute_times` (`jax_utils/route.py`, lines
138-206).  With `interp` set, the coordinates are resampled to ten-fold
density by `np.interp` in index space; the angle over ground, the field
components and the velocity over ground `v_g` are then computed on the
(possibly resampled) coordinates, but the division `np.divide(self.d,
v_g)` uses the stored distance cache of the ORIGINAL coordinates.
Mismatched operand shapes of that division are a numpy broadcast error,
modelled by `none`.  Negative per-segment times are replaced by the
array maximum (the NaN branch is embedded separately over `FVal`; over
`ℝ` the model has no NaN and `Real.sqrt` of a negative argument is `0`).
The cumulative times, with a leading zero, are interpolated back onto
the original sample count when `interp` is set. -/
noncomputable def Route.recompute_times (r : Route) (vel : ℝ) (vf : Vectorfield)
    (interp : Bool) : Option (List ℝ) :=
  let n := r.x.length
  let iGrid := linspace 0 n (10 * n)
  let jGrid := linspace 0 n n
  let x := if interp then npInterp iGrid jGrid r.x else r.x
  let y := if interp then npInterp iGrid jGrid r.y else r.y
  let a_g := ang_between_coords x y
  let vc := ((x.zip y).dropLast).map (fun p => vf.get_current p.1 p.2)
  let acvc := components_to_ang_mod (vc.map Prod.fst) (vc.map Prod.snd)
  let a_cg := List.zipWith (fun a b => a - b) acvc.1 a_g
  let comps := ang_mod_to_components a_cg acvc.2
  let v_vg_perp := comps.2.map (fun v => -v)
  let v_vg_para := v_vg_perp.map (fun v => Real.sqrt (vel ^ 2 - v ^ 2))
  let v_g := List.zipWith (fun a b => a + b) v_vg_para comps.1
  match broadcastDiv r.d v_g with
  | none => none
  | some t0 =>
    let t1 := if t0.any (fun v => decide (v < 0))
      then t0.map (fun v => if v < 0 then t0.max?.getD 0 else v)
      else t0
    let tc := (0 : ℝ) :: cumsum t1
    some (if interp then npInterp jGrid iGrid tc else tc)

/-- Embedding of `jnp.arange(start, stop, step)` for positive `step`:
the values `start + i * step` strictly below `stop`, of which there are
`⌈(stop - start) / step⌉`. -/
noncomputable def arange (start stop step : ℝ) : List ℝ :=
  (List.range (Nat.ceil ((stop - start) / step))).map (fun i : ℕ => start + i * step)

/-- The time grid `jnp.arange(time_start, time_end + time_step,
time_step)` shared by the three integration strategies of
`optimization/zivp.py`. -/
noncomputable def timeGrid (ts te dt : ℝ) : List ℝ := arange ts (te + dt) dt

/-- State triple `(x, y, theta)` of Zermelo's equations. -/
abbrev Pt3 : Type := ℝ × ℝ × ℝ

/-- Embedding of `solve_ode_zermelo` (`optimization/zivp.py`, lines
11-66): one call to the external IVP solver per candidate heading, one
Route per candidate built from the solution components with the grid as
its time sequence.  The external `jax.experimental.ode.odeint`
collaborator is the parameter `solver`, mapping an initial state and the
time grid to the three solution component arrays. -/
noncomputable def solve_ode_zermelo (solver : Pt3 → List ℝ → List ℝ × List ℝ × List ℝ)
    (x y thetas : List ℝ) (ts te dt : ℝ) : List (Option Route) :=
  let t := timeGrid ts te dt
  (List.range thetas.length).map (fun idx =>
    let sol := solver (x.getD idx 0, y.getD idx 0, thetas.getD idx 0) t
    Route.construct sol.1 sol.2.1 (some t) (some sol.2.2))

/-- Embedding of the inner loop of `solve_discretized_zermelo`
(`optimization/zivp.py`, lines 109-128): every entry of the
length-`len(t)` position lists is overwritten with the position after
the corresponding step, the heading held constant. -/
noncomputable def discretizedSteps (vf : Vectorfield) (vel θ dt : ℝ) :
    ℕ → ℝ × ℝ → List (ℝ × ℝ)
  | 0, _ => []
  | n + 1, p =>
    let c := vf.get_current p.1 p.2
    let p' := (p.1 + (vel * Real.cos θ + c.1) * dt, p.2 + (vel * Real.sin θ + c.2) * dt)
    p' :: discretizedSteps vf vel θ dt n p'

/-- Embedding of `solve_discretized_zermelo` (`optimization/zivp.py`,
lines 69-133): one Route per candidate heading; the Route is constructed
from the stepped positions and the constant heading list WITHOUT passing
the time grid, so `Route.__init__` fills in its default index times. -/
noncomputable def solve_discretized_zermelo (vf : Vectorfield)
    (x y thetas : List ℝ) (ts te dt vel : ℝ) : List (Option Route) :=
  let t := timeGrid ts te dt
  (List.range thetas.length).map (fun idx =>
    let θ := thetas.getD idx 0
    let pts := discretizedSteps vf vel θ dt t.length (x.getD idx 0, y.getD idx 0)
    Route.construct (pts.map Prod.fst) (pts.map Prod.snd) none
      (some (List.replicate t.length θ)))

/-- Componentwise sum of two state triples. -/
noncomputable def pt3Add (p q : Pt3) : Pt3 := (p.1 + q.1, p.2.1 + q.2.1, p.2.2 + q.2.2)

/-- Componentwise scaling of a state triple. -/
noncomputable def pt3Smul (c : ℝ) (p : Pt3) : Pt3 := (c * p.1, c * p.2.1, c * p.2.2)

/-- Embedding of one RK4 update of `solve_rk_zermelo`
(`optimization/zivp.py`, lines 183-200).  The stacked jax array
operations act elementwise per candidate, so the step maps each
candidate's state triple independently; `ode` is the
`vectorfield.ode_zermelo` collaborator (spec: "heading derivative driven
by the field's spatial velocity gradients"), taking state, time and
vessel velocity. -/
noncomputable def rkStep (ode : Pt3 → ℝ → ℝ → Pt3) (dt vel t0 : ℝ)
    (q0 : List Pt3) : List Pt3 :=
  q0.map (fun p =>
    let k1 := ode p t0 vel
    let k2 := ode (pt3Add p (pt3Smul (dt / 2) k1)) (t0 + dt / 2) vel
    let k3 := ode (pt3Add p (pt3Smul (dt / 2) k2)) (t0 + dt / 2) vel
    let k4 := ode (pt3Add p (pt3Smul dt k3)) (t0 + dt) vel
    pt3Add p (pt3Smul (dt / 6)
      (pt3Add (pt3Add k1 (pt3Smul 2 k2)) (pt3Add (pt3Smul 2 k3) k4))))

/-- Embedding of the trajectory accumulation of `solve_rk_zermelo`:
`arr_q[0]` is the stacked initial state and `arr_q[idx+1]` the RK step
from `arr_q[idx]` at grid time `arr_t[idx]`, one stacked state per grid
point. -/
noncomputable def rkTrajectory (ode : Pt3 → ℝ → ℝ → Pt3) (dt vel : ℝ) :
    List ℝ → List Pt3 → List (List Pt3)
  | [], _ => []
  | [_], q => [q]
  | t0 :: t1 :: rest, q => q :: rkTrajectory ode dt vel (t1 :: rest) (rkStep ode dt vel t0 q)

/-- Embedding of `jnp.stack((x, y, thetas))` as a list of state triples. -/
noncomputable def zip3 (x y z : List ℝ) : List Pt3 :=
  List.zipWith (fun a p => (a, p.1, p.2)) x (y.zip z)

/-- Embedding of `solve_rk_zermelo` (`optimization/zivp.py`, lines
136-215): the trajectory of stacked states is computed once, then one
Route per candidate index (the loop runs over `range(len(x))`) is built
from the per-candidate slices with the grid as its time sequence. -/
noncomputable def solve_rk_zermelo (ode : Pt3 → ℝ → ℝ → Pt3) (x y thetas : List ℝ)
    (ts te dt vel : ℝ) : List (Option Route) :=
  let arr_t := timeGrid ts te dt
  let arr_q := rkTrajectory ode dt vel arr_t (zip3 x y thetas)
  (List.range x.length).map (fun idx =>
    Route.construct (arr_q.map (fun q => (q.getD idx (0, 0, 0)).1))
      (arr_q.map (fun q => (q.getD idx (0, 0, 0)).2.1))
      (some arr_t)
      (some (arr_q.map (fun q => (q.getD idx (0, 0, 0)).2.2))))

/-- Embedding of `dist_to_dest` (`tf_utils/zivp.py`, lines 34-36),
the Euclidean distance between two points; `utils.distance` (not under
src/) is modelled from the spec by the same Euclidean geometry-distance. -/
noncomputable def dist_to_dest (p0 p1 : ℝ × ℝ) : ℝ :=
  Real.sqrt ((p0.1 - p1.1) ^ 2 + (p0.2 - p1.2) ^ 2)

/-- The final sample `route[-1]` of a candidate route array (Python
raises on an empty array; theorems assume nonemptiness where needed). -/
noncomputable def lastPt (r : List Pt3) : Pt3 := r.getLastD (0, 0, 0)

/-- The quantity scored inside `min_dist_to_dest`
(`tf_utils/zivp.py`, line 57): distance from a route's final point to
the goal. -/
noncomputable def routeScore (goal : ℝ × ℝ) (r : List Pt3) : ℝ :=
  dist_to_dest ((lastPt r).1, (lastPt r).2.1) goal

/-- Embedding of the scan inside `min_dist_to_dest`
(`tf_utils/zivp.py`, lines 55-61): `best` carries the strictly smallest
distance seen so far with its index (so the FIRST minimiser is kept),
`idx` is the index of the head of `l`. -/
noncomputable def minIdxAux (goal : ℝ × ℝ) : List (List Pt3) → ℕ → ℝ × ℕ → ℝ × ℕ
  | [], _, best => best
  | r :: rest, idx, best =>
    minIdxAux goal rest (idx + 1)
      (if routeScore goal r < best.1 then (routeScore goal r, idx) else best)

/-- Embedding of `min_dist_to_dest` (`tf_utils/zivp.py`, lines 39-61):
index of the first route whose final point is closest to the goal.  The
Python loop starts from `min_dist = np.inf`, so the first route always
becomes the initial best (every real distance is finite); on an empty
list Python raises `NameError`, the model returns 0 and theorems assume
nonemptiness. -/
noncomputable def min_dist_to_dest (listRoutes : List (List Pt3)) (goal : ℝ × ℝ) : ℕ :=
  match listRoutes with
  | [] => 0
  | r :: rest => (minIdxAux goal rest 1 (routeScore goal r, 0)).2

/-- State of the cone-search loop: current position and the cone center
to be used for the next candidate generation. -/
structure ConeState where
  x : ℝ
  y : ℝ
  cone : ℝ

/-- Configuration of `optimize_route` in `utils/optimize.py`:
destination, minimum arrival distance, and the candidate generator.  The
generator stands for `solve_wave` (`jax_utils/zivp.py`, not under src/,
whose outputs the loop consumes as arrays of points); it receives the
current position and the cone center, absorbed together with the time
and velocity parameters. -/
structure ConeCfg where
  xEnd : ℝ
  yEnd : ℝ
  distMin : ℝ
  solver : ℝ → ℝ → ℝ → List (List Pt3)

/-- Embedding of one iteration body of `optimize_route`
(`utils/optimize.py`, lines 88-114): generate candidates from the
current position and cone center, pick the index whose final point is
closest to the destination, advance to that final point, recompute the
cone center from the new position with `np.arctan2`, and emit the
candidate list with the selected route moved to the front
(`insert(0, pop(idx_best))`). -/
noncomputable def coneStep (cfg : ConeCfg) (s : ConeState) : ConeState × List (List Pt3) :=
  let lr := cfg.solver s.x s.y s.cone
  let idx := min_dist_to_dest lr (cfg.xEnd, cfg.yEnd)
  let p := lastPt (lr.getD idx [])
  (⟨p.1, p.2.1, arctan2 (cfg.yEnd - p.2.1) (cfg.xEnd - p.1)⟩,
   lr.getD idx [] :: lr.eraseIdx idx)

/-- The two terminal conditions of the cone-search loop. -/
inductive TermCause where
  | success : TermCause
  | stagnation : TermCause
deriving DecidableEq

/-- Fuel-bounded embedding of the `while` loop of `optimize_route`
(`utils/optimize.py`, lines 86-117): distance test at the loop head,
iteration body, yield, then the exact-equality stagnation break.  The
Python generator's observable output is only the list of yielded
candidate lists (first component); the final state and the terminal
cause (`success` when the head test `dist > dist_min` fails,
`stagnation` when the newly selected position equals the previous one,
`none` when the fuel ran out) are ghost instrumentation — the generator
ends silently in both terminal cases. -/
noncomputable def coneRun (cfg : ConeCfg) : ℕ → ConeState →
    List (List (List Pt3)) × ConeState × Option TermCause
  | 0, s => ([], s, none)
  | n + 1, s =>
    if dist_to_dest (s.x, s.y) (cfg.xEnd, cfg.yEnd) ≤ cfg.distMin then
      ([], s, some TermCause.success)
    else
      let r := coneStep cfg s
      if r.1.x = s.x ∧ r.1.y = s.y then ([r.2], r.1, some TermCause.stagnation)
      else
        let w := coneRun cfg n r.1
        (r.2 :: w.1, w.2.1, w.2.2)

/-- The loop-entry states of the fuel-bounded run: for each executed
iteration, the position and the cone center used to generate that
iteration's candidates. -/
noncomputable def coneStates (cfg : ConeCfg) : ℕ → ConeState → List ConeState
  | 0, _ => []
  | n + 1, s =>
    if dist_to_dest (s.x, s.y) (cfg.xEnd, cfg.yEnd) ≤ cfg.distMin then []
    else
      let r := coneStep cfg s
      if r.1.x = s.x ∧ r.1.y = s.y then [s]
      else s :: coneStates cfg n r.1

/-- The initial state of `optimize_route` (`utils/optimize.py`, lines
77-84): the first cone center is the angle from the start to the
destination. -/
noncomputable def coneInit (cfg : ConeCfg) (x0 y0 : ℝ) : ConeState :=
  ⟨x0, y0, arctan2 (cfg.yEnd - y0) (cfg.xEnd - x0)⟩

/-- Configuration of the `optimize_route` in `optimize.py`: destination,
cone amplitude and candidate count, and the external
`scipy.integrate.odeint` collaborator, mapping an initial state to the
solution array (of which the loop uses the last row). -/
structure RootCfg where
  xEnd : ℝ
  yEnd : ℝ
  angleAmp : ℝ
  numAngles : ℕ
  odeSolve : Pt3 → List Pt3

/-- One numpy value flowing through `optimize.py`'s selection call
site: a scalar or a 1-D array. -/
inductive NpVal where
  | scalar : ℝ → NpVal
  | arr : List ℝ → NpVal

/-- Embedding of numpy indexing `v[i]` for nonnegative `i`: defined on a
1-D array of sufficient length; indexing a scalar raises `IndexError`
(`none`). -/
noncomputable def NpVal.idx : NpVal → ℕ → Option ℝ
  | .scalar _, _ => none
  | .arr l, i => l[i]?

/-- Embedding of numpy indexing `v[-1]`: the last entry of a nonempty
1-D array, itself a scalar; on a scalar an `IndexError` (`none`). -/
noncomputable def NpVal.lastEntry : NpVal → Option NpVal
  | .scalar _ => none
  | .arr l => l.getLast?.map NpVal.scalar

/-- The `(3,)` final-state row `sol[-1]` of one integration, as the 1-D
numpy array `[x, y, theta]`. -/
noncomputable def pt3Arr (p : Pt3) : NpVal := NpVal.arr [p.1, p.2.1, p.2.2]

/-- Error-aware embedding of `dist_to_dest` (`tf_utils/zivp.py`, lines
34-36) applied to a numpy value and the goal tuple: the body reads
`p0[0]` and `p0[1]`, so it is defined only when `p0` is an array with at
least two entries; on the scalar that `min_dist_to_dest` passes as
`route[-1]` it raises `IndexError` (`none`). -/
noncomputable def dist_to_destE (p0 : NpVal) (p1 : ℝ × ℝ) : Option ℝ :=
  match p0.idx 0, p0.idx 1 with
  | some a, some b => some (dist_to_dest (a, b) p1)
  | _, _ => none

/-- Error-aware scan of `min_dist_to_dest` over the remaining routes:
each step scores `dist_to_dest(route[-1], pt_goal)` and keeps the first
strict minimiser; a raised error propagates. -/
noncomputable def minIdxAuxE (goal : ℝ × ℝ) : List NpVal → ℕ → ℝ × ℕ → Option (ℝ × ℕ)
  | [], _, best => some best
  | r :: rest, idx, best =>
    match r.lastEntry with
    | none => none
    | some p0 =>
      match dist_to_destE p0 goal with
      | none => none
      | some d =>
        minIdxAuxE goal rest (idx + 1) (if d < best.1 then (d, idx) else best)

/-- Error-aware embedding of `min_dist_to_dest` (`tf_utils/zivp.py`,
lines 39-61) as invoked from `optimize.py` line 60 on a list of numpy
values: when no scoring step raises, the result is the `int` index of
the first route whose `route[-1]` is closest to the goal (the Python
loop starts from `min_dist = np.inf`, so the first route always becomes
the initial best; an empty list raises `NameError`, `none`). -/
noncomputable def min_dist_to_destE (routes : List NpVal) (goal : ℝ × ℝ) : Option ℕ :=
  match routes with
  | [] => none
  | r :: rest =>
    match r.lastEntry with
    | none => none
    | some p0 =>
      match dist_to_destE p0 goal with
      | none => none
      | some d => (minIdxAuxE goal rest 1 (d, 0)).map Prod.snd

/-- Embedding of the tuple unpacking `x, y, theta = v` applied to the
`int` returned by `min_dist_to_dest`: an `int` is not iterable, so the
assignment raises `TypeError` (`none`) whatever the value. -/
noncomputable def unpackIntTriple (_v : ℕ) : Option (ℝ × ℝ × ℝ) := none

/-- Embedding of one iteration body of `optimize_route` in `optimize.py`
(lines 42-64), including the error behaviour of its selection call site:
candidate headings by `np.linspace` across the cone, one integration per
heading keeping the 1-D final state `sol[-1]`; line 60 then evaluates
`x, y, theta = min_dist_to_dest(candidates, (x_end, y_end))`.  Inside
`min_dist_to_dest` each candidate IS its `(3,)` final state, so the
score `dist_to_dest(route[-1], pt_goal)` indexes the scalar `route[-1]`
— an `IndexError`; and were an index returned, the call site would
unpack that `int` into three floats — a `TypeError`.  Only past both
faults would line 62 set the next cone center to the selected heading
`theta`. -/
noncomputable def rootStepE (cfg : RootCfg) (s : ConeState) : Option ConeState :=
  let thetas := linspace (s.cone - cfg.angleAmp / 2) (s.cone + cfg.angleAmp / 2) cfg.numAngles
  let candidates := thetas.map (fun θ => pt3Arr (lastPt (cfg.odeSolve (s.x, s.y, θ))))
  match min_dist_to_destE candidates (cfg.xEnd, cfg.yEnd) with
  | none => none
  | some idx =>
    match unpackIntTriple idx with
    | none => none
    | some c => some ⟨c.1, c.2.1, c.2.2⟩

/-- Value of one float per-segment time inside `Route.recompute_times`:
either IEEE NaN or a finite value (embedded as a rational).  This stage
of the code only compares and selects values, so it is embedded
decidably. -/
inductive FVal where
  | nan : FVal
  | fin : ℚ → FVal
deriving DecidableEq

/-- Embedding of `numpy.isnan` on one entry. -/
def FVal.isnan : FVal → Bool
  | .nan => true
  | .fin _ => false

/-- Embedding of the elementwise comparison `t < 0`: IEEE comparisons
with NaN are false. -/
def FVal.isneg : FVal → Bool
  | .nan => false
  | .fin q => decide (q < 0)

/-- The finite entries of an array, in order. -/
def finVals (l : List FVal) : List ℚ :=
  l.filterMap (fun v => match v with | .nan => none | .fin q => some q)

/-- Embedding of `numpy.nanmax`: the maximum over the non-NaN entries,
NaN when every entry is NaN. -/
def nanmax (l : List FVal) : FVal :=
  match (finVals l).max? with
  | some m => .fin m
  | none => .nan

/-- Embedding of `t[mask_nan] = np.nanmax(t)` guarded by
`if mask_nan.any()` (`jax_utils/route.py`, lines 184-190). -/
def clampNanStage (t : List FVal) : List FVal :=
  if t.any FVal.isnan then t.map (fun v => if v.isnan then nanmax t else v) else t

/-- Embedding of `t[mask_neg] = np.nanmax(t)` guarded by
`if mask_neg.any()` (`jax_utils/route.py`, lines 191-198); the mask was
computed on the original array, the replacement value on the updated
one. -/
def clampNegStage (mask : List Bool) (t : List FVal) : List FVal :=
  if mask.any id then List.zipWith (fun b v => if b then nanmax t else v) mask t else t

/-- Embedding of the degenerate-time handling stage of
`Route.recompute_times` (`jax_utils/route.py`, lines 181-198): both
masks are computed on the incoming per-segment times, NaN entries are
replaced first, then the originally-negative entries; the Boolean
records whether at least one warning was printed. -/
def clampDegenerateTimes (t : List FVal) : List FVal × Bool :=
  (clampNegStage (t.map FVal.isneg) (clampNanStage t),
   t.any FVal.isnan || t.any FVal.isneg)

/-- A configuration whose best candidate alternates between the
positions `(0, 0)` and `(1, 0)` while the destination `(100, 0)` stays
out of reach: positions cycle with period two, so consecutive positions
are never equal. -/
noncomputable def cycCfg : ConeCfg :=
  ⟨100, 0, 1, fun x _ _ => [[(if x = 0 then 1 else 0, 0, 0)]]⟩

/-- A configuration whose single candidate always ends at `(5, 0)`, with
the destination far away: starting at `(5, 0)` the first iteration
stagnates. -/
noncomputable def stagCfg : ConeCfg := ⟨100, 0, 1, fun _ _ _ => [[(5, 0, 0)]]⟩

/-- The same candidate generator as `stagCfg` but with destination
`(5, 0)`: starting at `(0, 0)` the first iteration reaches the
destination. -/
noncomputable def destCfg : ConeCfg := ⟨5, 0, 1, fun _ _ _ => [[(5, 0, 0)]]⟩

lemma length_linspace (a b : ℝ) (num : ℕ) : (linspace a b num).length = num := by
  unfold linspace
  by_cases h : num = 1
  · rw [if_pos h, h]; rfl
  · rw [if_neg h, List.length_map, List.length_range]

lemma length_npInterp (xq xp fp : List ℝ) : (npInterp xq xp fp).length = xq.length := by
  unfold npInterp
  rw [List.length_map]

lemma length_ang_between_coords (x y : List ℝ) :
    (ang_between_coords x y).length = min x.length y.length - 1 := by
  unfold ang_between_coords
  rw [List.length_zipWith, List.length_tail, List.length_zip]
  omega

lemma length_dist_between_coords (x y : List ℝ) :
    (dist_between_coords x y).length = min x.length y.length - 1 := by
  unfold dist_between_coords
  rw [List.length_zipWith, List.length_tail, List.length_zip]
  omega

lemma length_components_to_ang_mod_fst (vx vy : List ℝ) :
    (components_to_ang_mod vx vy).1.length = min vx.length vy.length := by
  unfold components_to_ang_mod
  rw [List.length_zipWith]

lemma length_components_to_ang_mod_snd (vx vy : List ℝ) :
    (components_to_ang_mod vx vy).2.length = min vx.length vy.length := by
  unfold components_to_ang_mod
  rw [List.length_zipWith]

lemma length_ang_mod_to_components_fst (a m : List ℝ) :
    (ang_mod_to_components a m).1.length = min a.length m.length := by
  unfold ang_mod_to_components
  rw [List.length_zipWith]

lemma length_ang_mod_to_components_snd (a m : List ℝ) :
    (ang_mod_to_components a m).2.length = min a.length m.length := by
  unfold ang_mod_to_components
  rw [List.length_zipWith]

lemma negDiff_eq (l : List ℝ) :
    (npDiff l).map (fun a => -a) = List.zipWith (fun a b => a - b) l l.tail := by
  induction l with
  | nil => rfl
  | cons a l ih =>
    cases l with
    | nil => rfl
    | cons b xs =>
      have h1 : npDiff (a :: b :: xs) = (b - a) :: npDiff (b :: xs) := rfl
      rw [h1, List.map_cons, ih]
      simp [neg_sub]

lemma chain_diff_nonpos (l : List ℝ) (h : List.Chain' (· ≤ ·) l) :
    ∀ v ∈ List.zipWith (fun a b => a - b) l l.tail, v ≤ 0 := by
  induction l with
  | nil => simp
  | cons a l ih =>
    cases l with
    | nil => simp
    | cons b xs =>
      rw [List.chain'_cons] at h
      intro v hv
      rw [List.tail_cons, List.zipWith_cons_cons, List.mem_cons] at hv
      rcases hv with hv | hv
      · rw [hv]; simpa using h.1
      · exact ih h.2 v (by simpa using hv)

lemma zip_diff_quot (x t : List ℝ) (h : x.length = t.length) :
    List.zipWith (fun a b => a / b)
        ((npDiff x).map (fun a => -a)) ((npDiff t).map (fun a => -a))
      = List.zipWith (fun p q => (q.1 - p.1) / (q.2 - p.2)) (x.zip t) (x.zip t).tail := by
  apply List.ext_getElem
  · simp [npDiff, h]
  · intro i h1 h2
    simp only [List.getElem_zipWith, List.getElem_map, npDiff, List.getElem_tail,
      List.getElem_zip]
    exact neg_div_neg_eq _ _

/-- C10: `dt`, `dx`, `dy` are the negated consecutive differences, hence
entrywise nonpositive `dt` for non-decreasing times, while `dxdt` and
`dydt` still equal the standard forward difference quotients because the
negations cancel. -/
theorem route_derived_diff_quotients (r : Route)
    (hx : r.x.length = r.t.length) (hy : r.y.length = r.t.length) :
    Route.dt r = List.zipWith (fun a b => a - b) r.t r.t.tail ∧
    (List.Chain' (· ≤ ·) r.t → ∀ v ∈ Route.dt r, v ≤ 0) ∧
    Route.dxdt r
      = List.zipWith (fun p q => (q.1 - p.1) / (q.2 - p.2)) (r.x.zip r.t) (r.x.zip r.t).tail ∧
    Route.dydt r
      = List.zipWith (fun p q => (q.1 - p.1) / (q.2 - p.2)) (r.y.zip r.t) (r.y.zip r.t).tail := by
  refine ⟨negDiff_eq r.t, ?_, ?_, ?_⟩
  · intro hc v hv
    rw [Route.dt, negDiff_eq] at hv
    exact chain_diff_nonpos r.t hc v hv
  · exact zip_diff_quot r.x r.t hx
  · exact zip_diff_quot r.y r.t hy

/-- Witness for C10 at a concrete two-point route. -/
theorem route_derived_diff_quotients_witness :
    ∃ r : Route, r.x.length = r.t.length ∧ r.y.length = r.t.length ∧
      Route.dt r = List.zipWith (fun a b => a - b) r.t r.t.tail := by
  refine ⟨⟨[0, 1], [0, 2], [0, 4], [0, 0], []⟩, by simp, by simp, ?_⟩
  exact (route_derived_diff_quotients ⟨[0, 1], [0, 2], [0, 4], [0, 0], []⟩
    (by simp) (by simp)).1

/-- C7: constructing a Route from position sequences of unequal length
fails immediately (the `assert` fires, modelled by `none`), so no Route
value is produced. -/
theorem construct_shape_mismatch (x y : List ℝ) (t0 theta0 : Option (List ℝ))
    (h : x.length ≠ y.length) :
    Route.construct x y t0 theta0 = none := by
  unfold Route.construct
  rw [if_neg]
  rintro ⟨h1, _⟩
  exact h h1

/-- Witness for C7: x of length 3, y of length 4. -/
theorem construct_shape_mismatch_witness :
    ([(0 : ℝ), 1, 2].length ≠ [(0 : ℝ), 1, 2, 3].length) ∧
      Route.construct [0, 1, 2] [0, 1, 2, 3] none none = none :=
  ⟨by simp, construct_shape_mismatch [0, 1, 2] [0, 1, 2, 3] none none (by simp)⟩

/-- C9: construction validates only `x`, `y`, `t`; a heading sequence of
mismatched length is accepted unchanged, producing a Route whose `theta`
length differs from its position length. -/
theorem construct_theta_unchecked (x y t th : List ℝ)
    (hxy : x.length = y.length) (hyt : y.length = t.length)
    (hth : th.length ≠ x.length) :
    ∃ r : Route, Route.construct x y (some t) (some th) = some r ∧
      r.theta = th ∧ r.theta.length ≠ r.x.length := by
  refine ⟨⟨x, y, t, th, dist_between_coords x y⟩, ?_, rfl, hth⟩
  unfold Route.construct
  simp [hxy, hyt]

/-- Witness for C9: positions of length 3 with a heading list of length 2. -/
theorem construct_theta_unchecked_witness :
    ∃ r : Route,
      Route.construct [0, 1, 2] [0, 1, 2] (some [0, 1, 2]) (some [0, 0]) = some r ∧
      r.theta = [0, 0] ∧ r.theta.length ≠ r.x.length :=
  construct_theta_unchecked [0, 1, 2] [0, 1, 2] [0, 1, 2] [0, 0]
    (by simp) (by simp) (by simp)

lemma append_points_none (r : Route) (x y : List ℝ) (tApp : List ℝ)
    (hb : broadcastAdd r.t ((List.range x.length).map (fun i : ℕ => (i : ℝ))) = some tApp) :
    Route.append_points r x y none none
      = some ⟨r.x ++ x, r.y ++ y, r.t ++ tApp,
          r.theta ++ List.replicate x.length (r.theta.getLastD 0),
          dist_between_coords (r.x ++ x) (r.y ++ y)⟩ := by
  have hkey : (Option.map some (none : Option (List ℝ))).getD
      (broadcastAdd r.t ((List.range x.length).map (fun i : ℕ => (i : ℝ)))) = some tApp := hb
  unfold Route.append_points
  rw [hkey]
  rfl

/-- C8 (failing input): on the route with `t = [0, 1]`, appending one
point with the time argument omitted broadcasts the whole current time
array against `arange(0, 1)` and concatenates, yielding `t = [0, 1, 0, 1]`
of length 4 while the coordinate sequences have length 3 — not the
claimed unit-increment continuation `[0, 1, 2]`. -/
theorem append_points_default_time_bug :
    (Route.append_points ⟨[0, 1], [0, 0], [0, 1], [0, 0], []⟩ [2] [0] none none).map
        (fun r => (r.t, r.x.length)) = some ([0, 1, 0, 1], 3) ∧
      ([(0 : ℝ), 1, 0, 1].length ≠ 3 ∧ [(0 : ℝ), 1, 0, 1] ≠ [0, 1, 2]) := by
  constructor
  · rw [append_points_none _ _ [0] [0, 1] (by simp [broadcastAdd, show List.range 1 = [0] from rfl])]
    simp
  · constructor
    · simp
    · intro h
      have := List.getElem_of_eq h (by simp : 2 < [(0 : ℝ), 1, 0, 1].length)
      norm_num at this

lemma minIdxAux_spec (goal : ℝ × ℝ) (l : List (List Pt3)) (idx : ℕ) (m : ℝ) (b : ℕ) :
    (minIdxAux goal l idx (m, b) = (m, b) ∨
      ∃ k, ∃ hk : k < l.length,
        minIdxAux goal l idx (m, b) = (routeScore goal (l.get ⟨k, hk⟩), idx + k)) ∧
    (minIdxAux goal l idx (m, b)).1 ≤ m ∧
    (∀ r ∈ l, (minIdxAux goal l idx (m, b)).1 ≤ routeScore goal r) := by
  induction l generalizing idx m b with
  | nil => exact ⟨Or.inl rfl, le_refl m, by simp⟩
  | cons r rest ih =>
    by_cases hlt : routeScore goal r < m
    · have heq : minIdxAux goal (r :: rest) idx (m, b)
          = minIdxAux goal rest (idx + 1) (routeScore goal r, idx) := by
        show minIdxAux goal rest (idx + 1)
            (if routeScore goal r < (m, b).1 then (routeScore goal r, idx) else (m, b)) = _
        rw [if_pos hlt]
      obtain ⟨hd, hle, hall⟩ := ih (idx + 1) (routeScore goal r) idx
      refine ⟨?_, ?_, ?_⟩
      · right
        rcases hd with hd | ⟨k, hk, hd⟩
        · refine ⟨0, by simp, ?_⟩
          rw [heq, hd]
          simp
        · refine ⟨k + 1, by simpa using Nat.succ_lt_succ hk, ?_⟩
          rw [heq, hd]
          have h1 : (r :: rest).get ⟨k + 1, by simpa using Nat.succ_lt_succ hk⟩
              = rest.get ⟨k, hk⟩ := rfl
          rw [h1, show idx + (k + 1) = idx + 1 + k by omega]
      · rw [heq]
        exact le_trans hle (le_of_lt hlt)
      · intro r' hr'
        rw [List.mem_cons] at hr'
        rcases hr' with rfl | hr'
        · rw [heq]; exact hle
        · rw [heq]; exact hall r' hr'
    · have heq : minIdxAux goal (r :: rest) idx (m, b)
          = minIdxAux goal rest (idx + 1) (m, b) := by
        show minIdxAux goal rest (idx + 1)
            (if routeScore goal r < (m, b).1 then (routeScore goal r, idx) else (m, b)) = _
        rw [if_neg hlt]
      obtain ⟨hd, hle, hall⟩ := ih (idx + 1) m b
      refine ⟨?_, by rw [heq]; exact hle, ?_⟩
      · rcases hd with hd | ⟨k, hk, hd⟩
        · left; rw [heq, hd]
        · right
          refine ⟨k + 1, by simpa using Nat.succ_lt_succ hk, ?_⟩
          rw [heq, hd]
          have h1 : (r :: rest).get ⟨k + 1, by simpa using Nat.succ_lt_succ hk⟩
              = rest.get ⟨k, hk⟩ := rfl
          rw [h1, show idx + (k + 1) = idx + 1 + k by omega]
      · intro r' hr'
        rw [List.mem_cons] at hr'
        rcases hr' with rfl | hr'
        · rw [heq]
          exact le_trans hle (not_lt.mp hlt)
        · rw [heq]; exact hall r' hr'

lemma min_dist_to_dest_spec (l : List (List Pt3)) (goal : ℝ × ℝ) (hne : l ≠ []) :
    min_dist_to_dest l goal < l.length ∧
    ∀ r ∈ l, routeScore goal (l.getD (min_dist_to_dest l goal) []) ≤ routeScore goal r := by
  cases l with
  | nil => exact absurd rfl hne
  | cons r0 rest =>
    obtain ⟨hd, hle, hall⟩ := minIdxAux_spec goal rest 1 (routeScore goal r0) 0
    have hunf : min_dist_to_dest (r0 :: rest) goal
        = (minIdxAux goal rest 1 (routeScore goal r0, 0)).2 := rfl
    rcases hd with hd | ⟨k, hk, hd⟩
    · rw [hunf, hd]
      refine ⟨by simp, ?_⟩
      intro r hr
      rw [List.mem_cons] at hr
      rcases hr with rfl | hr
      · simp
      · have := hall r hr
        rw [hd] at this
        simpa using this
    · rw [hunf, hd]
      refine ⟨by simp only [List.length_cons]; omega, ?_⟩
      intro r hr
      have hgd : (r0 :: rest).getD ((routeScore goal (rest.get ⟨k, hk⟩), 1 + k).2) []
          = rest.get ⟨k, hk⟩ := by
        have hb : k + 1 < (r0 :: rest).length := by
          simp only [List.length_cons]
          omega
        rw [show (routeScore goal (rest.get ⟨k, hk⟩), 1 + k).2 = k + 1 by simp [Nat.add_comm],
          List.getD_eq_getElem _ _ hb]
        simp
      rw [hgd]
      rw [List.mem_cons] at hr
      rcases hr with rfl | hr
      · have := hle
        rw [hd] at this
        simpa using this
      · have := hall r hr
        rw [hd] at this
        simpa using this

lemma mem_finVals (l : List FVal) (q : ℚ) : q ∈ finVals l ↔ FVal.fin q ∈ l := by
  unfold finVals
  rw [List.mem_filterMap]
  constructor
  · rintro ⟨v, hv, he⟩
    cases v with
    | nan => simp at he
    | fin p => simp at he; rwa [he] at hv
  · intro hv
    exact ⟨FVal.fin q, hv, rfl⟩

lemma finVals_clamped_max (t : List FVal) (m : ℚ) (hm : (finVals t).max? = some m) :
    (finVals (t.map (fun v => if v.isnan then FVal.fin m else v))).max? = some m := by
  haveI : Std.Antisymm (fun x1 x2 : ℚ => x1 ≤ x2) := ⟨fun h1 h2 => le_antisymm h1 h2⟩
  rw [List.max?_eq_some_iff] at hm
  · rw [List.max?_eq_some_iff]
    · constructor
      · rw [mem_finVals, List.mem_map]
        refine ⟨FVal.fin m, ?_, rfl⟩
        exact (mem_finVals t m).mp hm.1
      · intro b hb
        rw [mem_finVals, List.mem_map] at hb
        obtain ⟨v, hv, he⟩ := hb
        cases v with
        | nan => simp [FVal.isnan] at he; exact le_of_eq he.symm
        | fin p =>
          simp [FVal.isnan] at he
          rw [← he]
          exact hm.2 p ((mem_finVals t p).mpr hv)
    · exact fun a => le_refl a
    · exact fun a b => max_choice a b
    · exact fun a b c => max_le_iff
  · exact fun a => le_refl a
  · exact fun a b => max_choice a b
  · exact fun a b c => max_le_iff

lemma any_eq_false_forall (l : List FVal) (p : FVal → Bool) (h : ¬ l.any p = true) :
    ∀ v ∈ l, p v = false := by
  intro v hv
  rw [List.any_eq_true] at h
  push_neg at h
  simpa using h v hv

lemma clampNanStage_getElem (t : List FVal) (m : ℚ)
    (hm : (finVals t).max? = some m) (i : ℕ) :
    (clampNanStage t)[i]? = t[i]?.map (fun v => if v.isnan then FVal.fin m else v) := by
  have hnm : nanmax t = FVal.fin m := by unfold nanmax; rw [hm]
  unfold clampNanStage
  by_cases hn : t.any FVal.isnan = true
  · rw [if_pos hn, List.getElem?_map, hnm]
  · rw [if_neg hn]
    cases hti : t[i]? with
    | none => simp
    | some v =>
      have hv : v ∈ t := List.getElem?_mem hti
      have : FVal.isnan v = false := any_eq_false_forall t FVal.isnan hn v hv
      simp [hti, this]

lemma clampNanStage_max (t : List FVal) (m : ℚ) (hm : (finVals t).max? = some m) :
    (finVals (clampNanStage t)).max? = some m := by
  have hnm : nanmax t = FVal.fin m := by unfold nanmax; rw [hm]
  unfold clampNanStage
  by_cases hn : t.any FVal.isnan = true
  · rw [if_pos hn, hnm]
    exact finVals_clamped_max t m hm
  · rwa [if_neg hn]

/-- C5: during `recompute_times`, every per-segment time that is NaN or
negative is replaced by the maximum finite time among all segments, the
stage always completes with a same-length times array, and the warning
flag is raised exactly when at least one degenerate value was clamped. -/
theorem recompute_times_clamps_degenerates (t : List FVal) (m : ℚ)
    (hm : (finVals t).max? = some m) :
    ((clampDegenerateTimes t).1.length = t.length) ∧
    (∀ i : ℕ, (clampDegenerateTimes t).1[i]? =
        t[i]?.map (fun v => if v.isnan || v.isneg then FVal.fin m else v)) ∧
    ((clampDegenerateTimes t).2 = true ↔ ∃ v ∈ t, (v.isnan || v.isneg) = true) := by
  have hu := clampNanStage_max t m hm
  have hum : nanmax (clampNanStage t) = FVal.fin m := by unfold nanmax; rw [hu]
  have hlen1 : (clampNanStage t).length = t.length := by
    unfold clampNanStage
    by_cases hn : t.any FVal.isnan = true
    · rw [if_pos hn, List.length_map]
    · rw [if_neg hn]
  have hpt : ∀ i : ℕ, (clampDegenerateTimes t).1[i]? =
      t[i]?.map (fun v => if v.isnan || v.isneg then FVal.fin m else v) := by
    intro i
    unfold clampDegenerateTimes clampNegStage
    by_cases hg : (t.map FVal.isneg).any id = true
    · rw [if_pos hg]
      rw [List.getElem?_zipWith']
      rw [List.getElem?_map]
      cases hti : t[i]? with
      | none => simp
      | some v =>
        rw [clampNanStage_getElem t m hm i, hti, hum]
        cases hnv : FVal.isnan v <;> cases hgv : FVal.isneg v <;>
          simp [hnv, hgv]
    · rw [if_neg hg]
      rw [clampNanStage_getElem t m hm i]
      cases hti : t[i]? with
      | none => simp
      | some v =>
        have hv : v ∈ t := List.getElem?_mem hti
        have hmask : FVal.isneg v = false := by
          by_contra hc
          apply hg
          rw [List.any_eq_true]
          refine ⟨true, ?_, rfl⟩
          rw [List.mem_map]
          exact ⟨v, hv, by simpa using hc⟩
        simp [hmask]
  refine ⟨?_, hpt, ?_⟩
  · unfold clampDegenerateTimes clampNegStage
    by_cases hg : (t.map FVal.isneg).any id = true
    · rw [if_pos hg]
      rw [List.length_zipWith, List.length_map, hlen1, min_self]
    · rw [if_neg hg, hlen1]
  · unfold clampDegenerateTimes
    rw [Bool.or_eq_true, List.any_eq_true, List.any_eq_true]
    constructor
    · rintro (⟨v, hv, hp⟩ | ⟨v, hv, hp⟩)
      · exact ⟨v, hv, by simp [hp]⟩
      · exact ⟨v, hv, by simp [hp]⟩
    · rintro ⟨v, hv, hp⟩
      rw [Bool.or_eq_true] at hp
      rcases hp with hp | hp
      · exact Or.inl ⟨v, hv, hp⟩
      · exact Or.inr ⟨v, hv, hp⟩

/-- C4 (failing input): on a 3-point route with `interp` left at its
default, the division `np.divide(self.d, v_g)` pairs the 2-entry
original distance cache with the 29-entry velocity-over-ground array
computed on the ten-fold resampled coordinates — a numpy broadcast
error, so `recompute_times` never performs the claimed per-segment solve
on the resampled route's segment distances. -/
theorem recompute_times_interp_shape_bug :
    Route.recompute_times
      ⟨[0, 1, 2], [0, 0, 0], [0, 1, 2], [0, 0, 0],
        dist_between_coords [0, 1, 2] [0, 0, 0]⟩
      1 ⟨fun _ _ => (0, 0)⟩ true = none := by
  unfold Route.recompute_times
  simp [broadcastDiv, length_linspace, length_npInterp, length_ang_between_coords,
    length_dist_between_coords, List.length_zipWith, List.length_map,
    List.length_dropLast, List.length_zip, length_components_to_ang_mod_fst,
    length_components_to_ang_mod_snd, length_ang_mod_to_components_fst,
    length_ang_mod_to_components_snd]

lemma construct_some_of_lengths (x y t th : List ℝ)
    (hxy : x.length = y.length) (hyt : y.length = t.length) :
    Route.construct x y (some t) (some th)
      = some ⟨x, y, t, th, dist_between_coords x y⟩ := by
  unfold Route.construct
  simp [hxy, hyt]

lemma construct_none_t_of_lengths (x y th : List ℝ) (hxy : x.length = y.length) :
    Route.construct x y none (some th)
      = some ⟨x, y, (List.range x.length).map (fun i : ℕ => (i : ℝ)), th,
          dist_between_coords x y⟩ := by
  unfold Route.construct
  rw [Option.getD_none, if_pos]
  · rfl
  · exact ⟨hxy, by rw [List.length_map, List.length_range, hxy]⟩

lemma length_discretizedSteps (vf : Vectorfield) (vel θ dt : ℝ) (n : ℕ) (p : ℝ × ℝ) :
    (discretizedSteps vf vel θ dt n p).length = n := by
  induction n generalizing p with
  | zero => rfl
  | succ k ih => simp [discretizedSteps, ih]

lemma length_rkTrajectory (ode : Pt3 → ℝ → ℝ → Pt3) (dt vel : ℝ) (t : List ℝ)
    (q : List Pt3) : (rkTrajectory ode dt vel t q).length = t.length := by
  induction t generalizing q with
  | nil => rfl
  | cons t0 rest ih =>
    cases rest with
    | nil => rfl
    | cons t1 r2 => simp [rkTrajectory, ih]

/-- C2 (amended): each strategy returns one Route per candidate with
sample count equal to the grid length; the adaptive-ODE and RK4
strategies set the Route's time sequence to the grid, while the
fixed-step discretization leaves the Route's default index times
`0, 1, ..., N-1`.  The external IVP solver is assumed to return
grid-aligned components (its jax contract). -/
theorem integrator_shapes_contract (solver : Pt3 → List ℝ → List ℝ × List ℝ × List ℝ)
    (vf : Vectorfield) (ode : Pt3 → ℝ → ℝ → Pt3) (x y thetas : List ℝ)
    (ts te dt vel : ℝ)
    (hx : x.length = thetas.length)
    (hsol : ∀ p t, ((solver p t).1.length = t.length) ∧
      ((solver p t).2.1.length = t.length) ∧ ((solver p t).2.2.length = t.length)) :
    ((solve_ode_zermelo solver x y thetas ts te dt).length = thetas.length) ∧
    ((solve_discretized_zermelo vf x y thetas ts te dt vel).length = thetas.length) ∧
    ((solve_rk_zermelo ode x y thetas ts te dt vel).length = thetas.length) ∧
    (∀ o ∈ solve_ode_zermelo solver x y thetas ts te dt,
        ∃ r : Route, o = some r ∧ r.x.length = (timeGrid ts te dt).length ∧
          r.t = timeGrid ts te dt) ∧
    (∀ o ∈ solve_discretized_zermelo vf x y thetas ts te dt vel,
        ∃ r : Route, o = some r ∧ r.x.length = (timeGrid ts te dt).length ∧
          r.t = (List.range (timeGrid ts te dt).length).map (fun i : ℕ => (i : ℝ))) ∧
    (∀ o ∈ solve_rk_zermelo ode x y thetas ts te dt vel,
        ∃ r : Route, o = some r ∧ r.x.length = (timeGrid ts te dt).length ∧
          r.t = timeGrid ts te dt) := by
  refine ⟨?_, ?_, ?_, ?_, ?_, ?_⟩
  · unfold solve_ode_zermelo
    rw [List.length_map, List.length_range]
  · unfold solve_discretized_zermelo
    rw [List.length_map, List.length_range]
  · unfold solve_rk_zermelo
    rw [List.length_map, List.length_range, hx]
  · intro o ho
    unfold solve_ode_zermelo at ho
    rw [List.mem_map] at ho
    obtain ⟨idx, _, heq⟩ := ho
    obtain ⟨h1, h2, h3⟩ := hsol (x.getD idx 0, y.getD idx 0, thetas.getD idx 0)
      (timeGrid ts te dt)
    rw [construct_some_of_lengths _ _ _ _ (h1.trans h2.symm) h2] at heq
    exact ⟨_, heq.symm, h1, rfl⟩
  · intro o ho
    unfold solve_discretized_zermelo at ho
    rw [List.mem_map] at ho
    obtain ⟨idx, _, heq⟩ := ho
    have hlen : ∀ g : ℝ × ℝ → ℝ,
        ((discretizedSteps vf vel (thetas.getD idx 0) dt (timeGrid ts te dt).length
          (x.getD idx 0, y.getD idx 0)).map g).length = (timeGrid ts te dt).length := by
      intro g
      rw [List.length_map, length_discretizedSteps]
    rw [construct_none_t_of_lengths _ _ _ ((hlen _).trans (hlen _).symm)] at heq
    refine ⟨_, heq.symm, hlen _, ?_⟩
    rw [hlen _]
  · intro o ho
    unfold solve_rk_zermelo at ho
    rw [List.mem_map] at ho
    obtain ⟨idx, _, heq⟩ := ho
    have hlen : ∀ g : List Pt3 → ℝ,
        ((rkTrajectory ode dt vel (timeGrid ts te dt) (zip3 x y thetas)).map g).length
          = (timeGrid ts te dt).length := by
      intro g
      rw [List.length_map, length_rkTrajectory]
    rw [construct_some_of_lengths _ _ _ _ ((hlen _).trans (hlen _).symm) (hlen _)] at heq
    exact ⟨_, heq.symm, hlen _, rfl⟩

/-- Witness for C2's amended theorem at a concrete one-candidate call. -/
theorem integrator_shapes_contract_witness :
    (([(0 : ℝ)] : List ℝ).length = ([(0 : ℝ)] : List ℝ).length) ∧
    (∀ (p : Pt3) (t : List ℝ),
      (((fun (_ : Pt3) (t : List ℝ) => (t, t, t)) p t).1.length = t.length) ∧
      (((fun (_ : Pt3) (t : List ℝ) => (t, t, t)) p t).2.1.length = t.length) ∧
      (((fun (_ : Pt3) (t : List ℝ) => (t, t, t)) p t).2.2.length = t.length)) ∧
    ((solve_ode_zermelo (fun _ t => (t, t, t)) [0] [0] [0] 0 1 1).length
      = ([(0 : ℝ)] : List ℝ).length) :=
  ⟨rfl, fun _p _t => ⟨rfl, rfl, rfl⟩,
    (integrator_shapes_contract (fun _ t => (t, t, t)) ⟨fun _ _ => (0, 0)⟩
      (fun p _ _ => p) [0] [0] [0] 0 1 1 1 rfl (fun _p _t => ⟨rfl, rfl, rfl⟩)).1⟩

/-- C2 (counterexample): with `time_start = time_end = 5` and
`time_step = 1` the grid is `[5]`, but the route returned by the
fixed-step discretization has time sequence `[0]` — the default index
times, not the grid. -/
theorem solve_discretized_times_not_grid :
    timeGrid 5 5 1 = [5] ∧
    (solve_discretized_zermelo ⟨fun _ _ => (0, 0)⟩ [0] [0] [0] 5 5 1 1).map
        (fun o => o.map Route.t) = [some [0]] ∧
    ([(0 : ℝ)] : List ℝ) ≠ [5] := by
  have htg : timeGrid 5 5 1 = [5] := by
    unfold timeGrid arange
    rw [show ((5 + 1 - 5 : ℝ)) / 1 = 1 by norm_num, Nat.ceil_one,
      show List.range 1 = [0] from rfl]
    norm_num
  refine ⟨htg, ?_, by simp⟩
  unfold solve_discretized_zermelo
  rw [htg]
  rw [show List.range ([(0 : ℝ)] : List ℝ).length = [0] from rfl]
  rw [List.map_cons, List.map_nil, List.map_cons, List.map_nil]
  rw [construct_none_t_of_lengths _ _ _ (by rw [List.length_map, List.length_map])]
  rw [Option.map_some']
  rw [show (List.range ((discretizedSteps ⟨fun _ _ => (0, 0)⟩ 1 (([(0 : ℝ)] : List ℝ).getD 0 0) 1
      ([(5 : ℝ)] : List ℝ).length (([(0 : ℝ)] : List ℝ).getD 0 0,
      ([(0 : ℝ)] : List ℝ).getD 0 0)).map Prod.fst).length) = [0] by
    rw [List.length_map, length_discretizedSteps]
    rfl]
  rw [List.map_cons, List.map_nil, Nat.cast_zero]

lemma perm_getElem_cons_eraseIdx (l : List (List Pt3)) (i : ℕ) (h : i < l.length) :
    List.Perm (l.get ⟨i, h⟩ :: l.eraseIdx i) l := by
  have h1 : l.eraseIdx i = l.take i ++ l.drop (i + 1) := List.eraseIdx_eq_take_drop_succ l i
  have h2 : l.drop i = l.get ⟨i, h⟩ :: l.drop (i + 1) := List.drop_eq_getElem_cons h
  have h3 : l.take i ++ l.get ⟨i, h⟩ :: l.drop (i + 1) = l := by
    rw [← h2]
    exact List.take_append_drop i l
  rw [h1]
  conv_rhs => rw [← h3]
  exact List.perm_middle.symm

lemma coneStates_inv (cfg : ConeCfg) (n : ℕ) :
    ∀ s : ConeState, s.cone = arctan2 (cfg.yEnd - s.y) (cfg.xEnd - s.x) →
      ∀ u ∈ coneStates cfg n s, u.cone = arctan2 (cfg.yEnd - u.y) (cfg.xEnd - u.x) := by
  induction n with
  | zero =>
    intro s _ u hu
    simp [coneStates] at hu
  | succ k ih =>
    intro s hs u hu
    simp only [coneStates] at hu
    by_cases hδ : dist_to_dest (s.x, s.y) (cfg.xEnd, cfg.yEnd) ≤ cfg.distMin
    · rw [if_pos hδ] at hu
      simp at hu
    · rw [if_neg hδ] at hu
      by_cases hst : (coneStep cfg s).1.x = s.x ∧ (coneStep cfg s).1.y = s.y
      · rw [if_pos hst, List.mem_singleton] at hu
        rw [hu]
        exact hs
      · rw [if_neg hst, List.mem_cons] at hu
        rcases hu with rfl | hu
        · exact hs
        · exact ih (coneStep cfg s).1 rfl u hu

/-- Supporting fact for the cone-center claim, `utils/optimize.py`
side: in every executed iteration of that cone-search loop started from
`optimize_route`'s initial state, the cone center used to generate the
iteration's candidates equals the `np.arctan2` angle from the
iteration's current position to the destination; after each advance it
is recomputed from the new position. -/
theorem cone_center_tracks_destination (cfg : ConeCfg) (n : ℕ) (x0 y0 : ℝ) :
    ∀ u ∈ coneStates cfg n (coneInit cfg x0 y0),
      u.cone = arctan2 (cfg.yEnd - u.y) (cfg.xEnd - u.x) :=
  coneStates_inv cfg n (coneInit cfg x0 y0) rfl

lemma sqrt16 : Real.sqrt 16 = 4 := by
  rw [show (16 : ℝ) = 4 ^ 2 by norm_num]
  exact Real.sqrt_sq (by norm_num)

/-- Evaluation of the preceding invariant at one executed iteration of a
concrete configuration, discharging its membership hypothesis. -/
theorem cone_center_tracks_destination_witness :
    ∃ u ∈ coneStates ⟨4, 0, 1, fun _ _ _ => [[(1, 0, 0)]]⟩ 1
        (coneInit ⟨4, 0, 1, fun _ _ _ => [[(1, 0, 0)]]⟩ 0 0),
      u.cone = arctan2 ((0 : ℝ) - u.y) ((4 : ℝ) - u.x) := by
  have hδ : ¬ dist_to_dest ((0 : ℝ), (0 : ℝ)) ((4 : ℝ), (0 : ℝ)) ≤ 1 := by
    unfold dist_to_dest
    rw [show ((0 : ℝ) - 4) ^ 2 + ((0 : ℝ) - 0) ^ 2 = 16 by norm_num, sqrt16]
    norm_num
  have hmem : coneInit ⟨4, 0, 1, fun _ _ _ => [[(1, 0, 0)]]⟩ 0 0
      ∈ coneStates ⟨4, 0, 1, fun _ _ _ => [[(1, 0, 0)]]⟩ 1
        (coneInit ⟨4, 0, 1, fun _ _ _ => [[(1, 0, 0)]]⟩ 0 0) := by
    simp only [coneStates, coneInit]
    rw [if_neg hδ]
    simp
  exact ⟨_, hmem, cone_center_tracks_destination _ 1 0 0 _ hmem⟩

/-- C1 (failing input, the `optimize.py` optimizer): the first iteration
faults at the selection call site — `min_dist_to_dest`'s scoring indexes
the scalar `route[-1]` (`IndexError`), and the `int` index it would
return cannot be unpacked into `x, y, theta` (`TypeError`) — so the body
never advances the position and the cone-center update on line 62 is
unreachable: at a concrete input the embedded iteration body evaluates
to an error, where the claim says the iteration advances to the selected
candidate's final point and recomputes the cone center from that new
position. -/
theorem root_iteration_faults_before_advance :
    rootStepE ⟨4, 0, 0, 1, fun _ => [(1, 0, 1)]⟩ ⟨0, 0, arctan2 0 4⟩ = none := rfl

lemma dist_on_axis (a c : ℝ) : dist_to_dest (a, 0) (c, 0) = |a - c| := by
  unfold dist_to_dest
  rw [show ((a : ℝ) - c) ^ 2 + ((0 : ℝ) - 0) ^ 2 = (a - c) ^ 2 by ring]
  exact Real.sqrt_sq_eq_abs _

lemma cycRun_no_cause (n : ℕ) :
    ∀ s : ConeState, (s.x = 0 ∧ s.y = 0) ∨ (s.x = 1 ∧ s.y = 0) →
      (coneRun cycCfg n s).2.2 = none := by
  induction n with
  | zero => intro s _; rfl
  | succ k ih =>
    intro s hs
    have hsx : (coneStep cycCfg s).1.x = (if s.x = 0 then 1 else 0) := rfl
    have hsy : (coneStep cycCfg s).1.y = 0 := rfl
    have hδ : ¬ dist_to_dest (s.x, s.y) (cycCfg.xEnd, cycCfg.yEnd) ≤ cycCfg.distMin := by
      rcases hs with ⟨hx, hy⟩ | ⟨hx, hy⟩ <;>
        · rw [hx, hy]
          show ¬ dist_to_dest (_, 0) (100, 0) ≤ 1
          rw [dist_on_axis]
          norm_num
    rcases hs with ⟨hx, hy⟩ | ⟨hx, hy⟩
    · have hst : ¬ ((coneStep cycCfg s).1.x = s.x ∧ (coneStep cycCfg s).1.y = s.y) := by
        rintro ⟨h1, _⟩
        rw [hsx, hx, if_pos rfl] at h1
        norm_num at h1
      have he : coneRun cycCfg (k + 1) s
          = ((coneStep cycCfg s).2 :: (coneRun cycCfg k (coneStep cycCfg s).1).1,
            (coneRun cycCfg k (coneStep cycCfg s).1).2.1,
            (coneRun cycCfg k (coneStep cycCfg s).1).2.2) := by
        simp only [coneRun]
        rw [if_neg hδ, if_neg hst]
      rw [he]
      exact ih (coneStep cycCfg s).1 (Or.inr ⟨by rw [hsx, hx, if_pos rfl], hsy⟩)
    · have hst : ¬ ((coneStep cycCfg s).1.x = s.x ∧ (coneStep cycCfg s).1.y = s.y) := by
        rintro ⟨h1, _⟩
        rw [hsx, hx, if_neg (by norm_num)] at h1
        norm_num at h1
      have he : coneRun cycCfg (k + 1) s
          = ((coneStep cycCfg s).2 :: (coneRun cycCfg k (coneStep cycCfg s).1).1,
            (coneRun cycCfg k (coneStep cycCfg s).1).2.1,
            (coneRun cycCfg k (coneStep cycCfg s).1).2.2) := by
        simp only [coneRun]
        rw [if_neg hδ, if_neg hst]
      rw [he]
      exact ih (coneStep cycCfg s).1 (Or.inl ⟨by rw [hsx, hx, if_neg (by norm_num)], hsy⟩)

lemma stagRun_eval : coneRun stagCfg 2 ⟨5, 0, 0⟩
    = ([[[(5, 0, 0)]]], ⟨5, 0, arctan2 (0 - 0) (100 - 5)⟩, some TermCause.stagnation) := by
  have hδ : ¬ dist_to_dest ((5 : ℝ), (0 : ℝ)) (100, 0) ≤ 1 := by
    rw [dist_on_axis]
    norm_num
  simp only [coneRun]
  rw [if_neg (show ¬ dist_to_dest ((⟨5, 0, 0⟩ : ConeState).x, (⟨5, 0, 0⟩ : ConeState).y)
      (stagCfg.xEnd, stagCfg.yEnd) ≤ stagCfg.distMin from hδ)]
  rw [if_pos (show (coneStep stagCfg ⟨5, 0, 0⟩).1.x = (⟨5, 0, 0⟩ : ConeState).x ∧
      (coneStep stagCfg ⟨5, 0, 0⟩).1.y = (⟨5, 0, 0⟩ : ConeState).y from ⟨rfl, rfl⟩)]
  rfl

lemma destRun_eval : coneRun destCfg 2 ⟨0, 0, 0⟩
    = ([[[(5, 0, 0)]]], ⟨5, 0, arctan2 (0 - 0) (5 - 5)⟩, some TermCause.success) := by
  have hδ : ¬ dist_to_dest ((0 : ℝ), (0 : ℝ)) (5, 0) ≤ 1 := by
    rw [dist_on_axis]
    norm_num
  have hst : ¬ ((coneStep destCfg ⟨0, 0, 0⟩).1.x = (⟨0, 0, 0⟩ : ConeState).x ∧
      (coneStep destCfg ⟨0, 0, 0⟩).1.y = (⟨0, 0, 0⟩ : ConeState).y) := by
    rintro ⟨h1, _⟩
    have h5 : (5 : ℝ) = 0 := h1
    norm_num at h5
  have hδ2 : dist_to_dest ((5 : ℝ), (0 : ℝ)) (5, 0) ≤ 1 := by
    rw [dist_on_axis]
    norm_num
  simp only [coneRun]
  rw [if_neg (show ¬ dist_to_dest ((⟨0, 0, 0⟩ : ConeState).x, (⟨0, 0, 0⟩ : ConeState).y)
      (destCfg.xEnd, destCfg.yEnd) ≤ destCfg.distMin from hδ), if_neg hst]
  rw [if_pos (show dist_to_dest ((coneStep destCfg ⟨0, 0, 0⟩).1.x,
      (coneStep destCfg ⟨0, 0, 0⟩).1.y) (destCfg.xEnd, destCfg.yEnd) ≤ destCfg.distMin from hδ2)]
  rfl

/-- C3 (counterexample): the cone-search loop need not terminate at all —
with a candidate generator whose selected positions alternate between
`(0, 0)` and `(1, 0)` the exact-equality stagnation test never fires and
the distance never drops, so no fuel bound reaches a terminal state; and
when it does terminate, the generator's observable output (the yielded
trace) is identical for a stagnation run and a success run, so
termination is a silent stop: no distinguishable outcome is surfaced. -/
theorem cone_search_termination_claim_fails :
    (∀ n : ℕ, (coneRun cycCfg n ⟨0, 0, 0⟩).2.2 = none) ∧
    ((coneRun stagCfg 2 ⟨5, 0, 0⟩).2.2 = some TermCause.stagnation) ∧
    ((coneRun destCfg 2 ⟨0, 0, 0⟩).2.2 = some TermCause.success) ∧
    ((coneRun stagCfg 2 ⟨5, 0, 0⟩).1 = (coneRun destCfg 2 ⟨0, 0, 0⟩).1) := by
  refine ⟨fun n => cycRun_no_cause n ⟨0, 0, 0⟩ (Or.inl ⟨rfl, rfl⟩), ?_, ?_, ?_⟩
  · rw [stagRun_eval]
  · rw [destRun_eval]
  · rw [stagRun_eval, destRun_eval]

/-- C3 (amended): whenever the fuel-bounded loop stops on its own, the
ghost cause is `success` exactly when the final position is within
`dist_min` of the destination and `stagnation` exactly when it is not
(stagnation preserves the position, which had just failed the head
test), so the two terminal conditions are mutually exclusive and
recoverable from the final position — but only by the caller's own
recomputation, not from any emitted signal. -/
theorem cone_run_terminal_causes (cfg : ConeCfg) (n : ℕ) (s : ConeState) :
    ((coneRun cfg n s).2.2 = some TermCause.success →
      dist_to_dest ((coneRun cfg n s).2.1.x, (coneRun cfg n s).2.1.y) (cfg.xEnd, cfg.yEnd)
        ≤ cfg.distMin) ∧
    ((coneRun cfg n s).2.2 = some TermCause.stagnation →
      ¬ dist_to_dest ((coneRun cfg n s).2.1.x, (coneRun cfg n s).2.1.y) (cfg.xEnd, cfg.yEnd)
        ≤ cfg.distMin) := by
  induction n generalizing s with
  | zero =>
    constructor <;> intro h <;> exact absurd h (by simp [coneRun])
  | succ k ih =>
    by_cases hδ : dist_to_dest (s.x, s.y) (cfg.xEnd, cfg.yEnd) ≤ cfg.distMin
    · have he : coneRun cfg (k + 1) s = ([], s, some TermCause.success) := by
        simp only [coneRun]
        rw [if_pos hδ]
      rw [he]
      exact ⟨fun _ => hδ, fun h => by simp at h⟩
    · by_cases hst : (coneStep cfg s).1.x = s.x ∧ (coneStep cfg s).1.y = s.y
      · have he : coneRun cfg (k + 1) s
            = ([(coneStep cfg s).2], (coneStep cfg s).1, some TermCause.stagnation) := by
          simp only [coneRun]
          rw [if_neg hδ, if_pos hst]
        rw [he]
        refine ⟨fun h => by simp at h, fun _ => ?_⟩
        show ¬ dist_to_dest ((coneStep cfg s).1.x, (coneStep cfg s).1.y)
          (cfg.xEnd, cfg.yEnd) ≤ cfg.distMin
        rw [hst.1, hst.2]
        exact hδ
      · have he : coneRun cfg (k + 1) s
            = ((coneStep cfg s).2 :: (coneRun cfg k (coneStep cfg s).1).1,
              (coneRun cfg k (coneStep cfg s).1).2.1,
              (coneRun cfg k (coneStep cfg s).1).2.2) := by
          simp only [coneRun]
          rw [if_neg hδ, if_neg hst]
        rw [he]
        exact ⟨fun h => (ih (coneStep cfg s).1).1 h, fun h => (ih (coneStep cfg s).1).2 h⟩

/-- Witness for C3's amended theorem: the success and stagnation
characterizations each applied at a concrete run. -/
theorem cone_run_terminal_causes_witness :
    ((coneRun destCfg 2 ⟨0, 0, 0⟩).2.2 = some TermCause.success) ∧
    ((coneRun stagCfg 2 ⟨5, 0, 0⟩).2.2 = some TermCause.stagnation) ∧
    (dist_to_dest ((coneRun destCfg 2 ⟨0, 0, 0⟩).2.1.x, (coneRun destCfg 2 ⟨0, 0, 0⟩).2.1.y)
        (destCfg.xEnd, destCfg.yEnd) ≤ destCfg.distMin) ∧
    ¬ (dist_to_dest ((coneRun stagCfg 2 ⟨5, 0, 0⟩).2.1.x, (coneRun stagCfg 2 ⟨5, 0, 0⟩).2.1.y)
        (stagCfg.xEnd, stagCfg.yEnd) ≤ stagCfg.distMin) :=
  ⟨by rw [destRun_eval], by rw [stagRun_eval],
   (cone_run_terminal_causes destCfg 2 ⟨0, 0, 0⟩).1 (by rw [destRun_eval]),
   (cone_run_terminal_causes stagCfg 2 ⟨5, 0, 0⟩).2 (by rw [stagRun_eval])⟩

/-- C6: in every cone-search iteration, the emitted collection is a
permutation of the full candidate set whose head is the candidate
selected by `min_dist_to_dest`, and that selected candidate's final
point has minimal geometry-distance to the destination among all
candidates of the iteration. -/
theorem cone_iteration_selects_min_and_permutes (cfg : ConeCfg) (s : ConeState)
    (hne : cfg.solver s.x s.y s.cone ≠ []) :
    List.Perm (coneStep cfg s).2 (cfg.solver s.x s.y s.cone) ∧
    (coneStep cfg s).2.headD []
      = (cfg.solver s.x s.y s.cone).getD
          (min_dist_to_dest (cfg.solver s.x s.y s.cone) (cfg.xEnd, cfg.yEnd)) [] ∧
    (∀ r ∈ cfg.solver s.x s.y s.cone,
      routeScore (cfg.xEnd, cfg.yEnd) ((coneStep cfg s).2.headD [])
        ≤ routeScore (cfg.xEnd, cfg.yEnd) r) := by
  obtain ⟨hlt, hmin⟩ := min_dist_to_dest_spec (cfg.solver s.x s.y s.cone)
    (cfg.xEnd, cfg.yEnd) hne
  have hstep : (coneStep cfg s).2
      = (cfg.solver s.x s.y s.cone).getD
          (min_dist_to_dest (cfg.solver s.x s.y s.cone) (cfg.xEnd, cfg.yEnd)) []
        :: (cfg.solver s.x s.y s.cone).eraseIdx
          (min_dist_to_dest (cfg.solver s.x s.y s.cone) (cfg.xEnd, cfg.yEnd)) := rfl
  rw [hstep]
  refine ⟨?_, rfl, ?_⟩
  · rw [List.getD_eq_getElem _ _ hlt]
    exact perm_getElem_cons_eraseIdx _ _ hlt
  · intro r hr
    exact hmin r hr

/-- Witness for C6 at a concrete two-candidate iteration. -/
theorem cone_iteration_selects_min_and_permutes_witness :
    ((⟨0, 0, 1, fun _ _ _ => [[(3, 4, 0)], [(0, 9, 0)]]⟩ : ConeCfg).solver
        (⟨0, 0, 0⟩ : ConeState).x (⟨0, 0, 0⟩ : ConeState).y (⟨0, 0, 0⟩ : ConeState).cone
      ≠ []) ∧
    List.Perm (coneStep ⟨0, 0, 1, fun _ _ _ => [[(3, 4, 0)], [(0, 9, 0)]]⟩ ⟨0, 0, 0⟩).2
      ((⟨0, 0, 1, fun _ _ _ => [[(3, 4, 0)], [(0, 9, 0)]]⟩ : ConeCfg).solver
        (⟨0, 0, 0⟩ : ConeState).x (⟨0, 0, 0⟩ : ConeState).y (⟨0, 0, 0⟩ : ConeState).cone) :=
  ⟨by simp,
   (cone_iteration_selects_min_and_permutes
     ⟨0, 0, 1, fun _ _ _ => [[(3, 4, 0)], [(0, 9, 0)]]⟩ ⟨0, 0, 0⟩ (by simp)).1⟩

/-- Witness for C5 on the concrete segment times `[NaN, -1, 5]`. -/
theorem recompute_times_clamps_degenerates_witness :
    ((finVals [FVal.nan, FVal.fin (-1), FVal.fin 5]).max? = some 5) ∧
    (∀ i : ℕ, (clampDegenerateTimes [FVal.nan, FVal.fin (-1), FVal.fin 5]).1[i]? =
        ([FVal.nan, FVal.fin (-1), FVal.fin 5][i]?).map
          (fun v => if v.isnan || v.isneg then FVal.fin 5 else v)) :=
  ⟨by decide, (recompute_times_clamps_degenerates [FVal.nan, FVal.fin (-1), FVal.fin 5] 5
    (by decide)).2.1⟩

end HybridRouting
